import Mathlib

/-!
Verification of the camera-fleet signaling broker (`src-backend`).

The broker state and its operations are translated from
`src/src-backend/src/ws/server.rs` (the `Server` struct and its methods),
with the inbound dispatch from `src/src-backend/src/ws/connection.rs`.
Rust `HashMap`s become association lists with functional update,
`HashSet`s become duplicate-free lists, `Recipient` send handles are
identified with the peer id they belong to, and every `do_send` or
pipeline state change is recorded as an explicit `Effect`.
The protocol data types (`ws/protocol.rs`) are not present in the source
tree; they are modelled from the specification where noted.
-/

namespace FinalNvr

abbrev PeerId := String

/-- Peer roles, as in the protocol. `PeerStatus` carries a set of them. -/
inductive PeerRole where
  | Listener
  | Producer
  | Consumer
  | Recorder
deriving DecidableEq, Repr

/-- A JSON-ish value appearing as a field of a `meta` object. Non-string
values are abstracted to an opaque tag: the broker only ever reads string
fields out of `meta`. -/
inductive MetaVal where
  | str (v : String)
  | other (tag : Nat)
deriving DecidableEq, Repr

/-- The free-form JSON `meta` of a peer status: either an object
(association list of fields) or some non-object value, abstracted. -/
inductive Meta where
  | obj (fields : List (String × MetaVal))
  | nonObj (tag : Nat)
deriving DecidableEq, Repr

/-- Field lookup on an object: `meta.get(k).and_then(as_str)` in the source. -/
def metaGetStr (m : Meta) (k : String) : Option String :=
  match m with
  | .obj fields => go fields
  | .nonObj _ => none
where
  go : List (String × MetaVal) → Option String
    | [] => none
    | (k', v) :: rest =>
      if k' = k then
        match v with
        | .str s => some s
        | .other _ => none
      else go rest

/-- Modelled from the spec: `CameraMeta { id: camera-id, init: PeerId }`,
the shape a producer announces; `ws/protocol.rs` is absent from the tree. -/
structure CameraMeta where
  id : String
  init : PeerId
deriving DecidableEq, Repr

/-- Modelled from the spec: deserializing a `meta` value as `CameraMeta`
(`serde_json::from_value::<CameraMeta>`): succeeds iff the value is an
object with string fields `id` and `init`; other fields are ignored. -/
def decodeCameraMeta (m : Meta) : Option CameraMeta :=
  match metaGetStr m "id", metaGetStr m "init" with
  | some i, some n => some ⟨i, n⟩
  | _, _ => none

/-- Modelled from the spec: `PeerStatus { peer_id, roles, meta }` from
`ws/protocol.rs` (absent from the tree). Roles are kept as the list the
wire carries. -/
structure PeerStatus where
  peer_id : Option PeerId
  roles : List PeerRole
  meta : Option Meta
deriving DecidableEq, Repr

/-- The default status a freshly connected peer gets. -/
def PeerStatus.default : PeerStatus := ⟨none, [], none⟩

/-- `producing()`: `Producer` among the roles. -/
def producing (st : PeerStatus) : Prop := PeerRole.Producer ∈ st.roles

/-- `listening()`: `Listener` among the roles. -/
def listening (st : PeerStatus) : Prop := PeerRole.Listener ∈ st.roles

/-- `recording()`: `Recorder` among the roles. -/
def recording (st : PeerStatus) : Prop := PeerRole.Recorder ∈ st.roles

instance (st : PeerStatus) : Decidable (producing st) := by
  unfold producing; infer_instance
instance (st : PeerStatus) : Decidable (listening st) := by
  unfold listening; infer_instance
instance (st : PeerStatus) : Decidable (recording st) := by
  unfold recording; infer_instance

/-- Modelled from the spec: equality of two statuses used by the
`set_peer_status` no-op check — structural equality ignoring the stamped
`peer_id` field (`PartialEq for PeerStatus` lives in the absent
`ws/protocol.rs`). -/
def statusEq (a b : PeerStatus) : Prop := a.roles = b.roles ∧ a.meta = b.meta

instance (a b : PeerStatus) : Decidable (statusEq a b) := by
  unfold statusEq; infer_instance

/-- SDP payloads; the broker inspects only the discriminant. -/
inductive SdpMessage where
  | offer (sdp : String)
  | answer (sdp : String)
deriving DecidableEq, Repr

/-- Inner peer message: SDP or an ICE candidate (payload abstracted). -/
inductive PeerMessageInner where
  | sdp (m : SdpMessage)
  | ice (candidate : String) (sdpMLineIndex : Nat)
deriving DecidableEq, Repr

/-- `PeerMessage { session_id, peer_message }`. -/
structure PeerMessage where
  session_id : String
  peer_message : PeerMessageInner
deriving DecidableEq, Repr

/-- A camera row of the external catalog (`db/models.rs`). -/
structure Camera where
  id : String
  name : String
  location : String
  url : String
deriving DecidableEq, Repr

/-- Outbound protocol messages the broker emits (`p::OutgoingMessage`). -/
inductive OutgoingMessage where
  | welcome (peer_id : PeerId)
  | peerStatusChanged (status : PeerStatus)
  | sessionStarted (peer_id : PeerId) (session_id : String)
  | startSessionMsg (peer_id : PeerId) (session_id : String)
  | peerMsg (msg : PeerMessage)
  | endSessionMsg (session_id : String)
  | listCamerasMsg (cameras : List Camera)
  | errorMsg (details : String)
deriving DecidableEq, Repr

/-- An observable side effect of a broker operation: a message handed to a
peer outbound queue, or a gst pipeline state change. Pipeline elements are
identified by the handle allocated at `parse_launch` time. -/
inductive Effect where
  | send (dest : PeerId) (msg : OutgoingMessage)
  | startPipeline (handle : Nat)
  | stopPipeline (handle : Nat)
deriving DecidableEq, Repr

/-- A preview pipeline entry: the gst element (abstracted to its handle)
plus the set of viewer clients. -/
structure Pipeline where
  pipeline : Nat
  clients : List PeerId
deriving DecidableEq, Repr

/-- An active session. -/
structure Session where
  id : String
  consumer : PeerId
  producer : PeerId
deriving DecidableEq, Repr

/-- `Session::other_peer_id`: the opposite endpoint, producer checked
first. -/
def Session.otherPeerId (s : Session) (pid : PeerId) : Option PeerId :=
  if s.producer = pid then some s.consumer
  else if s.consumer = pid then some s.producer
  else none

section AList

variable {β : Type}

/-- `HashMap::get`, on an association list. -/
def alGet : List (String × β) → String → Option β
  | [], _ => none
  | (k', v) :: rest, k => if k' = k then some v else alGet rest k

/-- `HashMap::remove` (all occurrences of the key; keys are unique in the
maps the broker builds). -/
def alRemove : List (String × β) → String → List (String × β)
  | [], _ => []
  | (k', v) :: rest, k =>
    if k' = k then alRemove rest k else (k', v) :: alRemove rest k

/-- `HashMap::insert`: bind `k` to `v`, replacing any previous binding. -/
def alInsert (l : List (String × β)) (k : String) (v : β) :
    List (String × β) :=
  (k, v) :: alRemove l k

/-- `Entry::and_modify`: apply `f` to the value bound to `k`, if any. -/
def alModify : List (String × β) → String → (β → β) → List (String × β)
  | [], _, _ => []
  | (k', v) :: rest, k, f =>
    if k' = k then (k', f v) :: rest else (k', v) :: alModify rest k f

end AList

/-- `HashSet::insert`. -/
def setInsert (l : List String) (x : String) : List String :=
  if x ∈ l then l else x :: l

/-- `HashSet::remove` (removes every occurrence; elements are unique). -/
def setRemove (l : List String) (x : String) : List String :=
  l.filter (fun y => y ≠ x)

/-- `entry(k).or_insert_with(HashSet::new).insert(x)`. -/
def alUpsertAdd : List (String × List String) → String → String →
    List (String × List String)
  | [], k, x => [(k, [x])]
  | (k', st) :: rest, k, x =>
    if k' = k then (k', setInsert st x) :: rest
    else (k', st) :: alUpsertAdd rest k x

/-- The broker state (`struct Server`). The camera catalog, an external
SQLite table in the source, is embedded as the `db` field; `nextHandle`
allocates gst pipeline handles (standing for element identity). -/
structure Server where
  peers : List (PeerId × PeerStatus)
  pipelines : List (String × Pipeline)
  sessions : List (String × Session)
  consumer_sessions : List (PeerId × List String)
  producer_sessions : List (PeerId × List String)
  recorders : List (String × PeerId)
  db : List Camera
  nextHandle : Nat
deriving DecidableEq, Repr

/-- `Server::new`. -/
def Server.init : Server := ⟨[], [], [], [], [], [], [], 0⟩

/-- The result of one broker method: the new state, the effects emitted in
order, and the `Result` error, if any (errors are logged and swallowed by
the actix handlers; mutations made before the failure persist, as with
`&mut self` in the source). -/
structure Step where
  server : Server
  effects : List Effect
  err : Option String
deriving DecidableEq, Repr

/-- A convenience constructor for an error outcome with the given
(partially mutated) state and effects. -/
def Step.fail (s : Server) (effs : List Effect) (msg : String) : Step :=
  ⟨s, effs, some msg⟩

/-- A convenience constructor for a successful outcome. -/
def Step.done (s : Server) (effs : List Effect) : Step := ⟨s, effs, none⟩

/-- Broadcast one `PeerStatusChanged` to every listening peer, in registry
order (`self.peers.iter().for_each` guarded by `status.listening()`). -/
def broadcastStatusToListeners (peers : List (PeerId × PeerStatus))
    (st : PeerStatus) : List Effect :=
  (peers.filter (fun q => decide (listening q.2))).map
    (fun q => Effect.send q.1 (.peerStatusChanged st))

/-- Broadcast a `ListCameras` snapshot to every listening peer
(`Server::list_cameras_all_listener`, with the rows already loaded). -/
def broadcastCamerasToListeners (peers : List (PeerId × PeerStatus))
    (cams : List Camera) : List Effect :=
  (peers.filter (fun q => decide (listening q.2))).map
    (fun q => Effect.send q.1 (.listCamerasMsg cams))

/-- The `pipelines.retain` loop of `Server::disconnect`: remove the peer
from every viewer set, stop and drop any pipeline left without clients. -/
def dropViewer (connection_id : PeerId) :
    List (String × Pipeline) → List (String × Pipeline) × List Effect
  | [] => ([], [])
  | (cam, pl) :: rest =>
    let clients' := setRemove pl.clients connection_id
    let r := dropViewer connection_id rest
    if clients'.isEmpty then (r.1, .stopPipeline pl.pipeline :: r.2)
    else ((cam, { pl with clients := clients' }) :: r.1, r.2)

/-- `Handler<Connect>`: insert a fresh peer with the default status. The
fresh uuid is passed in as `pid`; the `Welcome` is sent by the connection
frontend, outside `Server`. -/
def connectOp (pid : PeerId) (s : Server) : Server :=
  { s with peers := alInsert s.peers pid PeerStatus.default }

/-- `Server::end_session`: drop the session and both reverse-index
entries, then notify the endpoint opposite `peer_id`. Failures after the
removal keep the mutations, as the source mutates `&mut self` before the
fallible steps. -/
def end_session (peer_id : PeerId) (session_id : String) (s : Server) :
    Step :=
  match alGet s.sessions session_id with
  | none => .fail s [] "Session does not exist"
  | some session =>
    let s1 := { s with
      sessions := alRemove s.sessions session_id,
      consumer_sessions :=
        alModify s.consumer_sessions session.consumer
          (fun st => setRemove st session_id),
      producer_sessions :=
        alModify s.producer_sessions session.producer
          (fun st => setRemove st session_id) }
    match session.otherPeerId peer_id with
    | none => .fail s1 [] "Peer is not part of session"
    | some other =>
      match alGet s1.peers other with
      | none => .fail s1 [] "Peer does not exist"
      | some _ =>
        .done s1 [.send other (.endSessionMsg session_id)]

/-- The drain loop shared by `stop_producer` and `stop_consumer`: call
`end_session` for each listed session id, swallowing per-session errors
and accumulating effects. -/
def endAll (peer_id : PeerId) (session_ids : List String)
    (acc : Server × List Effect) : Server × List Effect :=
  session_ids.foldl
    (fun acc sid =>
      let r := end_session peer_id sid acc.1
      (r.server, acc.2 ++ r.effects))
    acc

/-- `Server::stop_producer`: drain the producer-side reverse index and end
each listed session, swallowing per-session errors. -/
def stop_producer (peer_id : PeerId) (s : Server) :
    Server × List Effect :=
  match alGet s.producer_sessions peer_id with
  | none => (s, [])
  | some session_ids =>
    endAll peer_id session_ids
      ({ s with
         producer_sessions := alRemove s.producer_sessions peer_id }, [])

/-- `Server::stop_consumer`: the consumer-side analogue. -/
def stop_consumer (peer_id : PeerId) (s : Server) :
    Server × List Effect :=
  match alGet s.consumer_sessions peer_id with
  | none => (s, [])
  | some session_ids =>
    endAll peer_id session_ids
      ({ s with
         consumer_sessions := alRemove s.consumer_sessions peer_id }, [])

/-- `Server::disconnect`: drop the peer from every pipeline viewer set,
purge it from the recorder index, remove it from the registry (announcing
a gone recorder to listeners), then collapse its producer- and
consumer-side sessions. -/
def disconnect (connection_id : PeerId) (s : Server) :
    Server × List Effect :=
  let dv := dropViewer connection_id s.pipelines
  let recs := s.recorders.filter (fun e => e.2 ≠ connection_id)
  let removed := alGet s.peers connection_id
  let peers' := alRemove s.peers connection_id
  let s1 := { s with pipelines := dv.1, recorders := recs, peers := peers' }
  let bEffs :=
    match removed with
    | some st =>
      if recording st then
        broadcastStatusToListeners peers' ⟨none, st.roles, st.meta⟩
      else []
    | none => []
  let r2 := stop_producer connection_id s1
  let r3 := stop_consumer connection_id r2.1
  (r3.1, dv.2 ++ bEffs ++ r2.2 ++ r3.2)

/-- `Server::set_peer_status`: reject unknown peers; drop a status equal
to the stored one; otherwise stamp the peer id, store, and run the
producer- or recorder-side notification. -/
def set_peer_status (connection_id : PeerId) (peer_status : PeerStatus)
    (s : Server) : Step :=
  match alGet s.peers connection_id with
  | none => .fail s [] "Peer has not been welcomed"
  | some old =>
    if statusEq peer_status old then .done s []
    else
      let stamped := { peer_status with peer_id := some connection_id }
      let s1 := { s with peers := alInsert s.peers connection_id stamped }
      if producing peer_status then
        match peer_status.meta with
        | some m =>
          match decodeCameraMeta m with
          | some cm =>
            match alGet s1.peers cm.init with
            | some _ =>
              .done s1 [.send cm.init (.peerStatusChanged
                ⟨some connection_id, peer_status.roles, peer_status.meta⟩)]
            | none => .done s1 []
          | none => .done s1 []
        | none => .done s1 []
      else if recording peer_status then
        match peer_status.meta with
        | some m =>
          match metaGetStr m "id" with
          | some camId =>
            let s2 := { s1 with
              recorders := alInsert s1.recorders camId connection_id }
            .done s2 (broadcastStatusToListeners s2.peers
              ⟨some connection_id, peer_status.roles, peer_status.meta⟩)
          | none => .done s1 []
        | none => .done s1 []
      else .done s1 []

/-- The check `meta.get("id").filter(|v| **v == json!(camera_id)).is_some()`:
the meta has an `id` field equal to the given camera id string. -/
def metaIdIs (m? : Option Meta) (cam : String) : Bool :=
  match m? with
  | some m => decide (metaGetStr m "id" = some cam)
  | none => false

/-- The discriminant test `matches!(.., Sdp(Offer { .. }))`. -/
def isOffer (inner : PeerMessageInner) : Bool :=
  match inner with
  | .sdp (.offer _) => true
  | _ => false

/-- The producer scan in the existing-pipeline branch of
`Server::preview`: find the first producing peer whose meta `id` equals
the camera, and notify the requesting viewer if it is registered (the
`break` sits inside the `if let` on the viewer lookup, so an unregistered
viewer lets the scan continue without ever sending). -/
def findProducerNotify (allPeers : List (PeerId × PeerStatus))
    (cam : String) (viewer : PeerId) :
    List (PeerId × PeerStatus) → List Effect
  | [] => []
  | (pid, st) :: rest =>
    if producing st ∧ metaIdIs st.meta cam then
      match alGet allPeers viewer with
      | some _ =>
        [.send viewer (.peerStatusChanged ⟨some pid, st.roles, st.meta⟩)]
      | none => findProducerNotify allPeers cam viewer rest
    else findProducerNotify allPeers cam viewer rest

/-- `Server::preview`: add the viewer to an existing pipeline entry and
run the producer scan, or parse, start and record a fresh pipeline for the
camera (gst handle allocation modelled by the `nextHandle` counter). -/
def preview (camera_id _camera_url : String) (connection_id : PeerId)
    (s : Server) : Server × List Effect :=
  match alGet s.pipelines camera_id with
  | some _ =>
    let s1 := { s with
      pipelines := alModify s.pipelines camera_id
        (fun p => { p with clients := setInsert p.clients connection_id }) }
    (s1, findProducerNotify s1.peers camera_id connection_id s1.peers)
  | none =>
    let handle := s.nextHandle
    let s1 := { s with
      pipelines := alInsert s.pipelines camera_id ⟨handle, [connection_id]⟩,
      nextHandle := s.nextHandle + 1 }
    (s1, [.startPipeline handle])

/-- `Server::stop_preview`: remove the viewer; when the set drains, stop
the pipeline and erase the entry. -/
def stop_preview (camera_id : String) (connection_id : PeerId)
    (s : Server) : Server × List Effect :=
  match alGet s.pipelines camera_id with
  | none => (s, [])
  | some pl =>
    let clients' := setRemove pl.clients connection_id
    if clients'.isEmpty then
      ({ s with pipelines := alRemove s.pipelines camera_id },
       [.stopPipeline pl.pipeline])
    else
      ({ s with
          pipelines := alModify s.pipelines camera_id
            (fun p => { p with clients := setRemove p.clients connection_id }) },
       [])

/-- `Server::start_session`: validate the producer (present and
producing) and the consumer (present), then insert the session and both
reverse-index entries and notify consumer then producer, in that order.
The fresh uuid is passed in as `session_id`. -/
def start_session (session_id : String) (producer_id consumer_id : PeerId)
    (s : Server) : Step :=
  match alGet s.peers producer_id with
  | none => .fail s [] "No producer with this ID"
  | some pst =>
    if producing pst then
      match alGet s.peers consumer_id with
      | none => .fail s [] "No consumer with this ID"
      | some _ =>
        let s1 := { s with
          sessions := alInsert s.sessions session_id
            ⟨session_id, consumer_id, producer_id⟩,
          consumer_sessions :=
            alUpsertAdd s.consumer_sessions consumer_id session_id,
          producer_sessions :=
            alUpsertAdd s.producer_sessions producer_id session_id }
        .done s1
          [.send consumer_id (.sessionStarted producer_id session_id),
           .send producer_id (.startSessionMsg consumer_id session_id)]
    else .fail s [] "Peer is not registered as a producer"

/-- `Server::peer`: forward an SDP/ICE message to the other endpoint of
its session, refusing an SDP offer coming from the session consumer. -/
def peer_forward (peer_id : PeerId) (peer_msg : PeerMessage) (s : Server) :
    Step :=
  match alGet s.sessions peer_msg.session_id with
  | none => .fail s [] "Session does not exist"
  | some session =>
    if isOffer peer_msg.peer_message ∧ peer_id = session.consumer then
      .fail s [] "cannot forward offer from a peer that is not the producer"
    else
      match session.otherPeerId peer_id with
      | none => .fail s [] "Peer is not part of session"
      | some target =>
        match alGet s.peers target with
        | none => .fail s [] "Peer does not exist"
        | some _ => .done s [.send target (.peerMsg peer_msg)]

/-- `Server::remove_camera`: delete the catalog row, broadcast the
refreshed list to listeners, drop any preview pipeline for the camera,
and signal the registered recorder (if any) with `EndSession`. The
`dbOk` flag stands for the catalog I/O of this call succeeding; on
failure the source returns before any effect. -/
def remove_camera (dbOk : Bool) (camera_id : String) (s : Server) : Step :=
  if dbOk then
    let db' := s.db.filter (fun c => c.id ≠ camera_id)
    let s1 := { s with db := db' }
    let listEffs := broadcastCamerasToListeners s1.peers db'
    let rp :=
      match alGet s1.pipelines camera_id with
      | some pl =>
        ({ s1 with pipelines := alRemove s1.pipelines camera_id },
         [Effect.stopPipeline pl.pipeline])
      | none => (s1, ([] : List Effect))
    let s2 := rp.1
    let stopEffs := rp.2
    match alGet s2.recorders camera_id with
    | none => .done s2 (listEffs ++ stopEffs)
    | some rpid =>
      match alGet s2.peers rpid with
      | none => .done s2 (listEffs ++ stopEffs)
      | some rst =>
        if recording rst then
          .done s2 (listEffs ++ stopEffs ++
            [.send rpid (.endSessionMsg camera_id)])
        else
          .fail s2 (listEffs ++ stopEffs)
            "Peer is not registered as a recorder"
  else .fail s [] "Catalog failure"

/-- `Server::add_camera`: insert a fresh row (uuid passed in) and
broadcast the refreshed list to listeners; `dbOk` as in
`remove_camera`. -/
def add_camera (dbOk : Bool) (camera_id : String) (camera : Camera)
    (s : Server) : Step :=
  if dbOk then
    let s1 := { s with
      db := s.db ++ [{ camera with id := camera_id }] }
    .done s1 (broadcastCamerasToListeners s1.peers s1.db)
  else .fail s [] "Catalog failure"

/-- `Server::edit_camera`: update the row, broadcast the refreshed list,
then drop any cached preview pipeline for the camera. -/
def edit_camera (dbOk : Bool) (camera : Camera) (s : Server) : Step :=
  if dbOk then
    let db' := s.db.map (fun c => if c.id = camera.id then camera else c)
    let s1 := { s with db := db' }
    let listEffs := broadcastCamerasToListeners s1.peers db'
    match alGet s1.pipelines camera.id with
    | some pl =>
      .done { s1 with pipelines := alRemove s1.pipelines camera.id }
        (listEffs ++ [.stopPipeline pl.pipeline])
    | none => .done s1 listEffs
  else .fail s [] "Catalog failure"

/-- `Server::stop_recorder`: signal the recorder registered for the
camera, if connected and recording. -/
def stop_recorder (camera_id : String) (s : Server) : Step :=
  match alGet s.recorders camera_id with
  | none => .done s []
  | some rpid =>
    match alGet s.peers rpid with
    | none => .done s []
    | some rst =>
      if recording rst then
        .done s [.send rpid (.endSessionMsg camera_id)]
      else .fail s [] "Peer is not registered as a recorder"

/-- `Handler<EndSession> for Server`: the handler invokes
`self.end_session(&msg.peer_id, &msg.peer_id)`, passing the requesting
peer id for both arguments; `msg.session_id` is only used in the error
log line. Errors are logged and swallowed. -/
def handleEndSession (peer_id : PeerId) (_session_id : String)
    (s : Server) : Server × List Effect :=
  let r := end_session peer_id peer_id s
  (r.server, r.effects)

/-- Modelled from the spec: the inbound dispatch arm routing a
`RemoveCamera` frame to `Handler<RemoveCamera>` (the codec table routes
`RemoveCamera` to the catalog `remove`; the dispatch in
`ws/connection.rs` present in the tree predates that arm). The server
handler swallows the error, as `Handler<RemoveCamera>` does. -/
def dispatchRemoveCamera (dbOk : Bool) (camera : Camera) (s : Server) :
    Server × List Effect :=
  let r := remove_camera dbOk camera.id s
  (r.server, r.effects)

/-- Effect classifier: an `EndSession` signaling message addressed to the
given peer. -/
def isEndSessionTo (pid : PeerId) (e : Effect) : Bool :=
  match e with
  | .send q (.endSessionMsg _) => decide (q = pid)
  | _ => false

/-- Effect classifier: any `PeerStatusChanged` signaling message. -/
def isStatusChange (e : Effect) : Bool :=
  match e with
  | .send _ (.peerStatusChanged _) => true
  | _ => false

/-- The broker states reachable by handler invocations, starting from
`Server::new`. One constructor per actix handler that touches the broker
state; handlers swallow errors, so the (possibly partially mutated) state
of a failed call is reachable too. Fresh uuids (`Connect` peer ids,
`start_session` session ids) enter as parameters constrained to be
unused, matching uuid freshness. -/
inductive Reachable : Server → Prop where
  | init : Reachable Server.init
  | connect (pid : PeerId) {s : Server} :
      Reachable s → alGet s.peers pid = none → Reachable (connectOp pid s)
  | disconnectStep (pid : PeerId) {s : Server} :
      Reachable s → Reachable (disconnect pid s).1
  | setStatusStep (cid : PeerId) (st : PeerStatus) {s : Server} :
      Reachable s → Reachable (set_peer_status cid st s).server
  | previewStep (cam url : String) (vid : PeerId) {s : Server} :
      Reachable s → Reachable (preview cam url vid s).1
  | stopPreviewStep (cam : String) (vid : PeerId) {s : Server} :
      Reachable s → Reachable (stop_preview cam vid s).1
  | startSessionStep (sid : String) (pid cid : PeerId) {s : Server} :
      Reachable s → alGet s.sessions sid = none →
      Reachable (start_session sid pid cid s).server
  | endSessionStep (pid : PeerId) (sid : String) {s : Server} :
      Reachable s → Reachable (handleEndSession pid sid s).1
  | peerStep (pid : PeerId) (msg : PeerMessage) {s : Server} :
      Reachable s → Reachable (peer_forward pid msg s).server
  | addCameraStep (ok : Bool) (camId : String) (cam : Camera) {s : Server} :
      Reachable s → Reachable (add_camera ok camId cam s).server
  | editCameraStep (ok : Bool) (cam : Camera) {s : Server} :
      Reachable s → Reachable (edit_camera ok cam s).server
  | removeCameraStep (ok : Bool) (cam : Camera) {s : Server} :
      Reachable s → Reachable (dispatchRemoveCamera ok cam s).1
  | stopRecorderStep (camId : String) {s : Server} :
      Reachable s → Reachable (stop_recorder camId s).server

/-- Invariant I2 of the spec: every pipeline entry has at least one
viewer. -/
def PipeInv (s : Server) : Prop := ∀ e ∈ s.pipelines, e.2.clients ≠ []

/-- The registry-membership part of invariant I3: every recorder-index
value names a registered peer. -/
def RecInv (s : Server) : Prop :=
  ∀ e ∈ s.recorders, (alGet s.peers e.2).isSome

/-- `t` agrees with `s` on every field except the session stores. -/
def SessOnly (t s : Server) : Prop :=
  t.peers = s.peers ∧ t.pipelines = s.pipelines ∧
  t.recorders = s.recorders ∧ t.db = s.db ∧ t.nextHandle = s.nextHandle

/-- A recorder announcement for camera `cam2`, as the recorder binary
sends it. -/
def recStatus : PeerStatus :=
  ⟨none, [.Recorder], some (.obj [("id", .str "cam2")])⟩

/-- A plain listener announcement. -/
def listenerStatus : PeerStatus := ⟨none, [.Listener], none⟩

/-- Concrete scenario: listener `L` connected and announced. -/
def exL : Server :=
  (set_peer_status "L" listenerStatus (connectOp "L" Server.init)).server

/-- Concrete scenario: peer `Q` connected after `L`. -/
def exQ : Server := connectOp "Q" exL

/-- Concrete scenario: `Q` announces itself as recorder for `cam2`. -/
def exRec : Step := set_peer_status "Q" recStatus exQ

/-- A recorder announcement for camera `cam1`. -/
def cam1Status : PeerStatus :=
  ⟨none, [.Recorder], some (.obj [("id", .str "cam1")])⟩

/-- Concrete scenario: `p` registers as recorder for `cam1`, then changes
its status to plain listener. -/
def exC3 : Server :=
  (set_peer_status "p" listenerStatus
    (set_peer_status "p" cam1Status (connectOp "p" Server.init)).server).server

/-- Concrete scenario: consumer `pA` and producer `pB` share the active
session `sess1`. -/
def c1State : Server :=
  { Server.init with
    peers := [("pA", ⟨some "pA", [], none⟩),
              ("pB", ⟨some "pB", [.Producer], none⟩)],
    sessions := [("sess1", ⟨"sess1", "pA", "pB"⟩)],
    consumer_sessions := [("pA", ["sess1"])],
    producer_sessions := [("pB", ["sess1"])] }

/-- Concrete scenario: recorder `R` registered for `cam3`, listener `L`
connected, one catalog row. -/
def c6State : Server :=
  { Server.init with
    peers := [("R", ⟨some "R", [.Recorder],
                 some (.obj [("id", .str "cam3")])⟩),
              ("L", ⟨some "L", [.Listener], none⟩)],
    recorders := [("cam3", "R")],
    db := [⟨"cam3", "n", "loc", "u"⟩] }

/-- Concrete scenario: viewer `V` previews `cam1` from the empty broker. -/
def c7State : Server :=
  (preview "cam1" "rtsp-a" "V" (connectOp "V" Server.init)).1

/-- Concrete scenario: producer `P` holds active sessions `s1` with `V1`
and `s2` with `V2`. -/
def c8State : Server :=
  { Server.init with
    peers := [("P", ⟨some "P", [.Producer], none⟩),
              ("V1", ⟨some "V1", [], none⟩),
              ("V2", ⟨some "V2", [], none⟩)],
    sessions := [("s1", ⟨"s1", "V1", "P"⟩), ("s2", ⟨"s2", "V2", "P"⟩)],
    consumer_sessions := [("V1", ["s1"]), ("V2", ["s2"])],
    producer_sessions := [("P", ["s1", "s2"])] }

/-- A status carrying both the Producer and the Recorder role, with a
camera id in its meta. -/
def dualStatus : PeerStatus :=
  ⟨none, [.Producer, .Recorder], some (.obj [("id", .str "cam9")])⟩

/-- The state `Server::disconnect` reaches before collapsing sessions:
pipelines with the peer dropped, recorder index purged, registry entry
removed. Named so proofs can decompose `disconnect`. -/
def disconnectPrelude (p : PeerId) (s : Server) : Server :=
  { s with pipelines := (dropViewer p s.pipelines).1,
           recorders := s.recorders.filter (fun e => e.2 ≠ p),
           peers := alRemove s.peers p }

section AListLemmas

variable {β : Type}

theorem alGet_alRemove_self (l : List (String × β)) (k : String) :
    alGet (alRemove l k) k = none := by
  induction l with
  | nil => rfl
  | cons hd tl ih =>
    obtain ⟨k', v⟩ := hd
    by_cases h : k' = k <;> simp [alRemove, h, alGet, ih]

theorem alGet_alRemove_ne (l : List (String × β)) {k k' : String}
    (h : k' ≠ k) : alGet (alRemove l k) k' = alGet l k' := by
  induction l with
  | nil => rfl
  | cons hd tl ih =>
    obtain ⟨k'', v⟩ := hd
    by_cases hk : k'' = k
    · subst hk
      simp [alRemove, alGet, Ne.symm h, ih]
    · by_cases hq : k'' = k' <;> simp [alRemove, alGet, hk, hq, ih, h]

@[simp] theorem alGet_alInsert_self (l : List (String × β)) (k : String)
    (v : β) : alGet (alInsert l k v) k = some v := by
  simp [alInsert, alGet]

theorem alGet_alInsert_ne (l : List (String × β)) {k k' : String} (v : β)
    (h : k' ≠ k) : alGet (alInsert l k v) k' = alGet l k' := by
  simp [alInsert, alGet, Ne.symm h, alGet_alRemove_ne l h]

theorem alGet_alModify_self (l : List (String × β)) (k : String)
    (f : β → β) : alGet (alModify l k f) k = (alGet l k).map f := by
  induction l with
  | nil => rfl
  | cons hd tl ih =>
    obtain ⟨k', v⟩ := hd
    by_cases h : k' = k <;> simp [alModify, alGet, h, ih]

theorem alGet_alModify_ne (l : List (String × β)) {k k' : String}
    (f : β → β) (h : k' ≠ k) :
    alGet (alModify l k f) k' = alGet l k' := by
  induction l with
  | nil => rfl
  | cons hd tl ih =>
    obtain ⟨k'', v⟩ := hd
    by_cases hk : k'' = k
    · subst hk
      simp [alModify, alGet, Ne.symm h]
    · by_cases hq : k'' = k' <;> simp [alModify, alGet, hk, hq, ih, h]

theorem alGet_alModify_none (l : List (String × β)) {k k' : String}
    (f : β → β) (h : alGet l k' = none) :
    alGet (alModify l k f) k' = none := by
  by_cases hk : k' = k
  · subst hk
    simp [alGet_alModify_self, h]
  · rw [alGet_alModify_ne l f hk]
    exact h

theorem mem_alRemove {l : List (String × β)} {k : String}
    {e : String × β} (h : e ∈ alRemove l k) : e ∈ l := by
  induction l with
  | nil => simpa [alRemove] using h
  | cons hd tl ih =>
    obtain ⟨k', v⟩ := hd
    by_cases hk : k' = k
    · simp only [alRemove, if_pos hk] at h
      exact List.mem_cons_of_mem _ (ih h)
    · simp only [alRemove, if_neg hk, List.mem_cons] at h
      rcases h with h | h
      · exact h ▸ List.mem_cons_self _ _
      · exact List.mem_cons_of_mem _ (ih h)

theorem mem_alInsert {l : List (String × β)} {k : String} {v : β}
    {e : String × β} (h : e ∈ alInsert l k v) : e = (k, v) ∨ e ∈ l := by
  simp only [alInsert, List.mem_cons] at h
  rcases h with h | h
  · exact Or.inl h
  · exact Or.inr (mem_alRemove h)

theorem mem_alModify {l : List (String × β)} {k : String} {f : β → β}
    {e : String × β} (h : e ∈ alModify l k f) :
    e ∈ l ∨ ∃ v, alGet l k = some v ∧ e = (k, f v) := by
  induction l with
  | nil => simpa [alModify] using h
  | cons hd tl ih =>
    obtain ⟨k', v⟩ := hd
    by_cases hk : k' = k
    · subst hk
      simp only [alModify, if_true, List.mem_cons, reduceIte] at h
      rcases h with h1 | h1
      · exact Or.inr ⟨v, (by simp [alGet]), h1⟩
      · exact Or.inl (List.mem_cons_of_mem _ h1)
    · simp only [alModify, if_neg hk, List.mem_cons] at h
      rcases h with h1 | h1
      · exact Or.inl (by simp [h1])
      · rcases ih h1 with h' | ⟨w, hw, he⟩
        · exact Or.inl (List.mem_cons_of_mem _ h')
        · exact Or.inr ⟨w, (by simp [alGet, hk, hw]), he⟩

theorem alRemove_of_alGet_none {l : List (String × β)} {k : String}
    (h : alGet l k = none) : alRemove l k = l := by
  induction l with
  | nil => rfl
  | cons hd tl ih =>
    obtain ⟨k', v⟩ := hd
    by_cases hk : k' = k
    · simp [alGet, hk] at h
    · simp only [alGet, if_neg hk] at h
      simp [alRemove, hk, ih h]

theorem alGet_alUpsertAdd_self (l : List (String × List String))
    (k x : String) :
    ∃ st, alGet (alUpsertAdd l k x) k = some st ∧ x ∈ st := by
  induction l with
  | nil => exact ⟨[x], by simp [alUpsertAdd, alGet]⟩
  | cons hd tl ih =>
    obtain ⟨k', st⟩ := hd
    by_cases hk : k' = k
    · refine ⟨setInsert st x, ?_, ?_⟩
      · simp [alUpsertAdd, hk, alGet]
      · by_cases hx : x ∈ st <;> simp [setInsert, hx]
    · obtain ⟨st', hget, hmem⟩ := ih
      exact ⟨st', by simp [alUpsertAdd, hk, alGet, hget], hmem⟩

end AListLemmas

theorem setInsert_ne_nil (l : List String) (x : String) :
    setInsert l x ≠ [] := by
  by_cases hx : x ∈ l
  · simp only [setInsert, if_pos hx]
    intro h
    rw [h] at hx
    exact (List.not_mem_nil x) hx
  · simp [setInsert, hx]

theorem setRemove_of_not_mem {l : List String} {x : String} (h : x ∉ l) :
    setRemove l x = l := by
  apply List.filter_eq_self.mpr
  intro y hy
  simp only [decide_eq_true_eq]
  intro hxy
  exact h (hxy ▸ hy)

theorem not_mem_setRemove (l : List String) (x : String) :
    x ∉ setRemove l x := by
  intro h
  simp [setRemove, List.mem_filter] at h

theorem sessOnly_refl (s : Server) : SessOnly s s :=
  ⟨rfl, rfl, rfl, rfl, rfl⟩

theorem sessOnly_trans {u t s : Server} (h1 : SessOnly u t)
    (h2 : SessOnly t s) : SessOnly u s :=
  ⟨h1.1.trans h2.1, h1.2.1.trans h2.2.1, h1.2.2.1.trans h2.2.2.1,
   h1.2.2.2.1.trans h2.2.2.2.1, h1.2.2.2.2.trans h2.2.2.2.2⟩

theorem end_session_sessOnly (p sid : String) (s : Server) :
    SessOnly (end_session p sid s).server s := by
  unfold end_session
  dsimp only
  repeat' split
  all_goals exact ⟨rfl, rfl, rfl, rfl, rfl⟩

theorem endAll_sessOnly (p : PeerId) (sids : List String)
    (acc : Server × List Effect) :
    SessOnly (endAll p sids acc).1 acc.1 := by
  induction sids generalizing acc with
  | nil => exact sessOnly_refl _
  | cons sid rest ih =>
    simp only [endAll, List.foldl_cons]
    exact sessOnly_trans (ih _) (end_session_sessOnly p sid acc.1)

theorem stop_producer_sessOnly (p : PeerId) (s : Server) :
    SessOnly (stop_producer p s).1 s := by
  unfold stop_producer
  split
  · exact sessOnly_refl _
  · exact endAll_sessOnly ..

theorem stop_consumer_sessOnly (p : PeerId) (s : Server) :
    SessOnly (stop_consumer p s).1 s := by
  unfold stop_consumer
  split
  · exact sessOnly_refl _
  · exact endAll_sessOnly ..

theorem disconnect_peers (p : PeerId) (s : Server) :
    (disconnect p s).1.peers = alRemove s.peers p := by
  unfold disconnect
  exact ((stop_consumer_sessOnly ..).1.trans (stop_producer_sessOnly ..).1)

theorem disconnect_pipelines (p : PeerId) (s : Server) :
    (disconnect p s).1.pipelines = (dropViewer p s.pipelines).1 := by
  unfold disconnect
  exact ((stop_consumer_sessOnly ..).2.1.trans (stop_producer_sessOnly ..).2.1)

theorem disconnect_recorders (p : PeerId) (s : Server) :
    (disconnect p s).1.recorders =
      s.recorders.filter (fun e => e.2 ≠ p) := by
  unfold disconnect
  exact ((stop_consumer_sessOnly ..).2.2.1.trans
    (stop_producer_sessOnly ..).2.2.1)

theorem dropViewer_clients_ne_nil (cid : PeerId)
    (l : List (String × Pipeline)) :
    ∀ e ∈ (dropViewer cid l).1, e.2.clients ≠ [] := by
  induction l with
  | nil => intro e he; simp [dropViewer] at he
  | cons hd tl ih =>
    obtain ⟨cam, pl⟩ := hd
    intro e he
    by_cases hemp : (setRemove pl.clients cid).isEmpty
    · simp only [dropViewer, if_pos hemp] at he
      exact ih e he
    · simp only [dropViewer, if_neg hemp, List.mem_cons] at he
      rcases he with he | he
      · subst he
        simp only [ne_eq]
        intro hnil
        rw [hnil] at hemp
        exact hemp (by simp [List.isEmpty])
      · exact ih e he

theorem dropViewer_effects_stop (cid : PeerId)
    (l : List (String × Pipeline)) :
    ∀ e ∈ (dropViewer cid l).2, ∃ h, e = Effect.stopPipeline h := by
  induction l with
  | nil => intro e he; simp [dropViewer] at he
  | cons hd tl ih =>
    obtain ⟨cam, pl⟩ := hd
    intro e he
    by_cases hemp : (setRemove pl.clients cid).isEmpty
    · simp only [dropViewer, if_pos hemp, List.mem_cons] at he
      rcases he with he | he
      · exact ⟨pl.pipeline, he⟩
      · exact ih e he
    · simp only [dropViewer, if_neg hemp] at he
      exact ih e he

theorem broadcastStatus_shape (peers : List (PeerId × PeerStatus))
    (st : PeerStatus) :
    ∀ e ∈ broadcastStatusToListeners peers st, ∃ q,
      e = Effect.send q (.peerStatusChanged st) := by
  intro e he
  simp only [broadcastStatusToListeners, List.mem_map] at he
  obtain ⟨q, _, hq⟩ := he
  exact ⟨q.1, hq.symm⟩

theorem broadcastCameras_mem (peers : List (PeerId × PeerStatus))
    (cams : List Camera) {q : PeerId} {st : PeerStatus}
    (hmem : (q, st) ∈ peers) (hl : listening st) :
    Effect.send q (.listCamerasMsg cams) ∈
      broadcastCamerasToListeners peers cams := by
  simp only [broadcastCamerasToListeners, List.mem_map]
  exact ⟨(q, st), List.mem_filter.mpr ⟨hmem, by simpa using hl⟩, rfl⟩

theorem filter_endSessionTo_dropViewer (cid v : PeerId)
    (l : List (String × Pipeline)) :
    ((dropViewer cid l).2).filter (isEndSessionTo v) = [] := by
  rw [List.filter_eq_nil]
  intro e he
  obtain ⟨h, rfl⟩ := dropViewer_effects_stop cid l e he
  simp [isEndSessionTo]

theorem filter_endSessionTo_broadcast (v : PeerId)
    (peers : List (PeerId × PeerStatus)) (st : PeerStatus) :
    (broadcastStatusToListeners peers st).filter (isEndSessionTo v) = [] := by
  rw [List.filter_eq_nil]
  intro e he
  obtain ⟨q, rfl⟩ := broadcastStatus_shape peers st e he
  simp [isEndSessionTo]

theorem alGet_alInsert_isSome {β : Type} (l : List (String × β))
    (k k' : String) (v : β) (h : (alGet l k').isSome) :
    (alGet (alInsert l k v) k').isSome := by
  by_cases hk : k' = k
  · subst hk; simp
  · rw [alGet_alInsert_ne l v hk]; exact h

theorem set_peer_status_pipelines (cid : PeerId) (st : PeerStatus)
    (s : Server) :
    (set_peer_status cid st s).server.pipelines = s.pipelines := by
  unfold set_peer_status
  dsimp only
  repeat' split
  all_goals rfl

theorem start_session_frame (sid : String) (p c : PeerId) (s : Server) :
    (start_session sid p c s).server.peers = s.peers ∧
    (start_session sid p c s).server.recorders = s.recorders ∧
    (start_session sid p c s).server.pipelines = s.pipelines := by
  unfold start_session
  dsimp only
  repeat' split
  all_goals exact ⟨rfl, rfl, rfl⟩

theorem preview_frame (cam url : String) (vid : PeerId) (s : Server) :
    (preview cam url vid s).1.peers = s.peers ∧
    (preview cam url vid s).1.recorders = s.recorders := by
  unfold preview
  dsimp only
  repeat' split
  all_goals exact ⟨rfl, rfl⟩

theorem stop_preview_frame (cam : String) (vid : PeerId) (s : Server) :
    (stop_preview cam vid s).1.peers = s.peers ∧
    (stop_preview cam vid s).1.recorders = s.recorders := by
  unfold stop_preview
  dsimp only
  repeat' split
  all_goals exact ⟨rfl, rfl⟩

theorem add_camera_frame (ok : Bool) (camId : String) (cam : Camera)
    (s : Server) :
    (add_camera ok camId cam s).server.peers = s.peers ∧
    (add_camera ok camId cam s).server.recorders = s.recorders ∧
    (add_camera ok camId cam s).server.pipelines = s.pipelines := by
  unfold add_camera
  dsimp only
  repeat' split
  all_goals exact ⟨rfl, rfl, rfl⟩

theorem edit_camera_frame (ok : Bool) (cam : Camera) (s : Server) :
    (edit_camera ok cam s).server.peers = s.peers ∧
    (edit_camera ok cam s).server.recorders = s.recorders := by
  unfold edit_camera
  dsimp only
  repeat' split
  all_goals exact ⟨rfl, rfl⟩

theorem remove_camera_frame (ok : Bool) (camId : String) (s : Server) :
    (remove_camera ok camId s).server.peers = s.peers ∧
    (remove_camera ok camId s).server.recorders = s.recorders := by
  unfold remove_camera
  dsimp only
  repeat' split
  all_goals exact ⟨rfl, rfl⟩

theorem peer_forward_server (pid : PeerId) (m : PeerMessage) (s : Server) :
    (peer_forward pid m s).server = s := by
  unfold peer_forward
  repeat' split
  all_goals rfl

theorem stop_recorder_server (camId : String) (s : Server) :
    (stop_recorder camId s).server = s := by
  unfold stop_recorder
  repeat' split
  all_goals rfl

theorem pipeInv_frame {t s : Server} (hp : t.pipelines = s.pipelines)
    (h : PipeInv s) : PipeInv t := by
  intro e he
  rw [hp] at he
  exact h e he

theorem recInv_frame {t s : Server} (hr : t.recorders = s.recorders)
    (hp : t.peers = s.peers) (h : RecInv s) : RecInv t := by
  intro e he
  rw [hr] at he
  rw [hp]
  exact h e he

theorem pipeInv_disconnect (p : PeerId) (s : Server) :
    PipeInv (disconnect p s).1 := by
  intro e he
  rw [disconnect_pipelines] at he
  exact dropViewer_clients_ne_nil p s.pipelines e he

theorem pipeInv_preview (cam url : String) (vid : PeerId) (s : Server)
    (h : PipeInv s) : PipeInv (preview cam url vid s).1 := by
  unfold preview
  cases hpl : alGet s.pipelines cam with
  | some pl =>
    dsimp only
    intro e he
    rcases mem_alModify he with he' | ⟨v, hv, rfl⟩
    · exact h e he'
    · exact setInsert_ne_nil v.clients vid
  | none =>
    dsimp only
    intro e he
    rcases mem_alInsert he with rfl | he'
    · simp
    · exact h e he'

theorem pipeInv_stop_preview (cam : String) (vid : PeerId) (s : Server)
    (h : PipeInv s) : PipeInv (stop_preview cam vid s).1 := by
  unfold stop_preview
  cases hpl : alGet s.pipelines cam with
  | none => exact h
  | some pl =>
    dsimp only
    by_cases hemp : (setRemove pl.clients vid).isEmpty
    · rw [if_pos hemp]
      intro e he
      exact h e (mem_alRemove he)
    · rw [if_neg hemp]
      intro e he
      rcases mem_alModify he with he' | ⟨v, hv, rfl⟩
      · exact h e he'
      · rw [hpl] at hv
        injection hv with hv
        subst hv
        intro hnil
        refine hemp ?_
        rw [List.isEmpty_iff]
        exact hnil

theorem pipeInv_edit_camera (ok : Bool) (cam : Camera) (s : Server)
    (h : PipeInv s) : PipeInv (edit_camera ok cam s).server := by
  unfold edit_camera
  dsimp only
  repeat' split
  all_goals intro e he
  · exact h e (mem_alRemove he)
  · exact h e he
  · exact h e he

theorem pipeInv_remove_camera (ok : Bool) (camId : String) (s : Server)
    (h : PipeInv s) : PipeInv (remove_camera ok camId s).server := by
  unfold remove_camera
  dsimp only
  repeat' split
  all_goals intro e he
  all_goals first
    | exact h e (mem_alRemove he)
    | exact h e he

theorem pipeInv_handleEndSession (p sid : String) (s : Server)
    (h : PipeInv s) : PipeInv (handleEndSession p sid s).1 :=
  pipeInv_frame (end_session_sessOnly p p s).2.1 h

/-- Invariant I2 holds in every reachable broker state. -/
theorem reachable_pipeInv {s : Server} (h : Reachable s) : PipeInv s := by
  induction h with
  | init => intro e he; simp [Server.init] at he
  | connect pid _ _ ih => exact pipeInv_frame rfl ih
  | disconnectStep pid _ _ => exact pipeInv_disconnect pid _
  | setStatusStep cid st _ ih =>
    exact pipeInv_frame (set_peer_status_pipelines ..) ih
  | previewStep cam url vid _ ih => exact pipeInv_preview cam url vid _ ih
  | stopPreviewStep cam vid _ ih => exact pipeInv_stop_preview cam vid _ ih
  | startSessionStep sid pid cid _ _ ih =>
    exact pipeInv_frame (start_session_frame ..).2.2 ih
  | endSessionStep pid sid _ ih => exact pipeInv_handleEndSession pid sid _ ih
  | peerStep pid msg _ ih => exact pipeInv_frame (by rw [peer_forward_server]) ih
  | addCameraStep ok camId cam _ ih =>
    exact pipeInv_frame (add_camera_frame ..).2.2 ih
  | editCameraStep ok cam _ ih => exact pipeInv_edit_camera ok cam _ ih
  | removeCameraStep ok cam _ ih => exact pipeInv_remove_camera ok cam.id _ ih
  | stopRecorderStep camId _ ih =>
    exact pipeInv_frame (by rw [stop_recorder_server]) ih

theorem recInv_connect (pid : PeerId) (s : Server) (h : RecInv s) :
    RecInv (connectOp pid s) := by
  intro e he
  exact alGet_alInsert_isSome _ _ _ _ (h e he)

theorem recInv_disconnect (p : PeerId) (s : Server) (h : RecInv s) :
    RecInv (disconnect p s).1 := by
  intro e he
  rw [disconnect_recorders] at he
  rw [disconnect_peers]
  obtain ⟨hmem, hne⟩ := List.mem_filter.mp he
  rw [alGet_alRemove_ne _ (by simpa using hne)]
  exact h e hmem

theorem recInv_insert_peer (s : Server) (cid : PeerId)
    (stamped : PeerStatus) (h : RecInv s) :
    RecInv { s with peers := alInsert s.peers cid stamped } := by
  intro e he
  exact alGet_alInsert_isSome _ _ _ _ (h e he)

theorem recInv_set_peer_status (cid : PeerId) (st : PeerStatus)
    (s : Server) (h : RecInv s) :
    RecInv (set_peer_status cid st s).server := by
  unfold set_peer_status
  cases hp : alGet s.peers cid with
  | none => exact h
  | some old =>
    dsimp only
    by_cases he : statusEq st old
    · rw [if_pos he]; exact h
    · rw [if_neg he]
      by_cases hprod : producing st
      · rw [if_pos hprod]
        cases st.meta with
        | none => exact recInv_insert_peer s cid _ h
        | some m =>
          dsimp only
          cases decodeCameraMeta m with
          | none => exact recInv_insert_peer s cid _ h
          | some cm =>
            dsimp only
            split
            · exact recInv_insert_peer s cid _ h
            · exact recInv_insert_peer s cid _ h
      · rw [if_neg hprod]
        by_cases hrec : recording st
        · rw [if_pos hrec]
          cases st.meta with
          | none => exact recInv_insert_peer s cid _ h
          | some m =>
            dsimp only
            cases metaGetStr m "id" with
            | none => exact recInv_insert_peer s cid _ h
            | some camId =>
              dsimp only [Step.done]
              intro e he'
              rcases mem_alInsert he' with rfl | hmem
              · simp
              · exact alGet_alInsert_isSome _ _ _ _ (h e hmem)
        · rw [if_neg hrec]
          exact recInv_insert_peer s cid _ h

/-- The registry-membership part of invariant I3 holds in every reachable
broker state. -/
theorem reachable_recInv {s : Server} (h : Reachable s) : RecInv s := by
  induction h with
  | init => intro e he; simp [Server.init] at he
  | connect pid _ _ ih => exact recInv_connect pid _ ih
  | disconnectStep pid _ ih => exact recInv_disconnect pid _ ih
  | setStatusStep cid st _ ih => exact recInv_set_peer_status cid st _ ih
  | previewStep cam url vid _ ih =>
    exact recInv_frame (preview_frame cam url vid _).2
      (preview_frame cam url vid _).1 ih
  | stopPreviewStep cam vid _ ih =>
    exact recInv_frame (stop_preview_frame cam vid _).2
      (stop_preview_frame cam vid _).1 ih
  | startSessionStep sid pid cid _ _ ih =>
    exact recInv_frame (start_session_frame ..).2.1
      (start_session_frame ..).1 ih
  | endSessionStep pid sid _ ih =>
    exact recInv_frame (end_session_sessOnly pid pid _).2.2.1
      (end_session_sessOnly pid pid _).1 ih
  | peerStep pid msg _ ih =>
    exact recInv_frame (by rw [peer_forward_server])
      (by rw [peer_forward_server]) ih
  | addCameraStep ok camId cam _ ih =>
    exact recInv_frame (add_camera_frame ..).2.1 (add_camera_frame ..).1 ih
  | editCameraStep ok cam _ ih =>
    exact recInv_frame (edit_camera_frame ..).2 (edit_camera_frame ..).1 ih
  | removeCameraStep ok cam _ ih =>
    exact recInv_frame (remove_camera_frame ..).2 (remove_camera_frame ..).1 ih
  | stopRecorderStep camId _ ih =>
    exact recInv_frame (by rw [stop_recorder_server])
      (by rw [stop_recorder_server]) ih

theorem stop_producer_noop {p : PeerId} {t : Server}
    (h : alGet t.producer_sessions p = none) :
    stop_producer p t = (t, []) := by
  unfold stop_producer
  rw [h]

theorem stop_consumer_noop {p : PeerId} {t : Server}
    (h : alGet t.consumer_sessions p = none) :
    stop_consumer p t = (t, []) := by
  unfold stop_consumer
  rw [h]

/-- C1: the claim says an `EndSession` frame with session id `s` from an
endpoint removes session `s` and notifies the other endpoint. The handler
in the source instead passes the requesting peer id as the session id,
so for a real session id (distinct from the peer ids, as uuids are) the
lookup misses: the session stays, nothing is sent. Evaluated here at the
failing input `(peer pA, session sess1)` of the concrete state. -/
theorem endSession_frame_noop_on_real_session :
    handleEndSession "pA" "sess1" c1State = (c1State, []) ∧
    alGet (handleEndSession "pA" "sess1" c1State).1.sessions "sess1" =
      some ⟨"sess1", "pA", "pB"⟩ := by
  constructor
  · decide
  · decide

/-- C2: re-sending a status structurally equal (ignoring the stamped
`peer_id`) to the stored one is a no-op: the state is unchanged, no
message is sent, no error raised. -/
theorem setPeerStatus_identical_noop (cid : PeerId) (st old : PeerStatus)
    (s : Server) (h : alGet s.peers cid = some old)
    (heq : statusEq st old) :
    set_peer_status cid st s = Step.done s [] := by
  unfold set_peer_status
  rw [h]
  dsimp only
  rw [if_pos heq]

/-- Witness for C2: recorder `Q` sends the same `SetPeerStatus` twice;
the first call emits exactly one `PeerStatusChanged` (to listener `L`),
the second is a no-op. -/
theorem setPeerStatus_identical_noop_witness :
    (exRec.effects.filter isStatusChange).length = 1 ∧
    set_peer_status "Q" recStatus exRec.server = Step.done exRec.server [] :=
  ⟨by decide,
   setPeerStatus_identical_noop "Q" recStatus
     ⟨some "Q", [.Recorder], some (.obj [("id", .str "cam2")])⟩
     exRec.server (by decide) (by decide)⟩

/-- C4: an SDP offer arriving from the session consumer is never
forwarded: the call fails, no effect is emitted and the state is
unchanged. -/
theorem offer_from_consumer_rejected (s : Server) (from_peer : PeerId)
    (pm : PeerMessage) (sess : Session)
    (hs : alGet s.sessions pm.session_id = some sess)
    (hoff : isOffer pm.peer_message = true)
    (hfrom : from_peer = sess.consumer) :
    (peer_forward from_peer pm s).server = s ∧
    (peer_forward from_peer pm s).effects = [] ∧
    (peer_forward from_peer pm s).err.isSome := by
  unfold peer_forward
  rw [hs]
  dsimp only
  rw [if_pos ⟨by simpa using hoff, hfrom⟩]
  exact ⟨rfl, rfl, rfl⟩

/-- Witness for C4: the consumer `pA` of session `sess1` sends an offer;
nothing is forwarded. -/
theorem offer_from_consumer_rejected_witness :
    (peer_forward "pA" ⟨"sess1", .sdp (.offer "o")⟩ c1State).server =
        c1State ∧
    (peer_forward "pA" ⟨"sess1", .sdp (.offer "o")⟩ c1State).effects = [] ∧
    (peer_forward "pA" ⟨"sess1", .sdp (.offer "o")⟩ c1State).err.isSome :=
  offer_from_consumer_rejected c1State "pA" ⟨"sess1", .sdp (.offer "o")⟩
    ⟨"sess1", "pA", "pB"⟩ (by decide) (by decide) (by decide)

/-- C10: when the announced roles contain both Producer and Recorder,
only the producer-side effect can run: the recorder index is never
touched and the only message that may be emitted is the unicast to the
`init` peer named by the camera meta — never the listener broadcast. -/
theorem dual_role_producer_branch_only (cid : PeerId) (st : PeerStatus)
    (s : Server) (hp : PeerRole.Producer ∈ st.roles)
    (_hr : PeerRole.Recorder ∈ st.roles) :
    (set_peer_status cid st s).server.recorders = s.recorders ∧
    ∀ e ∈ (set_peer_status cid st s).effects, ∃ m cm,
      st.meta = some m ∧ decodeCameraMeta m = some cm ∧
      e = .send cm.init
        (.peerStatusChanged ⟨some cid, st.roles, st.meta⟩) := by
  unfold set_peer_status
  cases hpe : alGet s.peers cid with
  | none => exact ⟨rfl, by intro e he; simp [Step.fail] at he⟩
  | some old =>
    dsimp only
    by_cases he : statusEq st old
    · rw [if_pos he]
      exact ⟨rfl, by intro e he'; simp [Step.done] at he'⟩
    · rw [if_neg he]
      rw [if_pos (show producing st from hp)]
      cases hm : st.meta with
      | none =>
        exact ⟨rfl, by intro e he'; simp [Step.done] at he'⟩
      | some m =>
        dsimp only
        cases hcm : decodeCameraMeta m with
        | none =>
          exact ⟨rfl, by intro e he'; simp [Step.done] at he'⟩
        | some cm =>
          dsimp only
          split
          · refine ⟨rfl, ?_⟩
            intro e he'
            simp only [Step.done, List.mem_singleton] at he'
            exact ⟨m, cm, rfl, hcm, by rw [he']⟩
          · exact ⟨rfl, by intro e he'; simp [Step.done] at he'⟩

/-- Witness for C10: `pA` announces both roles with a camera meta lacking
`init`; nothing is sent and the recorder index stays empty. -/
theorem dual_role_producer_branch_only_witness :
    (set_peer_status "pA" dualStatus c1State).server.recorders =
        c1State.recorders ∧
    ∀ e ∈ (set_peer_status "pA" dualStatus c1State).effects, ∃ m cm,
      dualStatus.meta = some m ∧ decodeCameraMeta m = some cm ∧
      e = .send cm.init
        (.peerStatusChanged ⟨some "pA", dualStatus.roles, dualStatus.meta⟩) :=
  dual_role_producer_branch_only "pA" dualStatus c1State
    (by decide) (by decide)

/-- C5: `start_session` with a registered producing producer and a
registered consumer inserts the session and both reverse-index entries
and notifies consumer then producer, in that order; with a missing
producer, a non-producing producer, or a missing consumer it fails
without mutating anything or sending anything. -/
theorem start_session_spec (sid : String) (P C : PeerId) (s : Server) :
    (∀ pst cst, alGet s.peers P = some pst → producing pst →
      alGet s.peers C = some cst → alGet s.sessions sid = none →
      (start_session sid P C s).err = none ∧
      alGet (start_session sid P C s).server.sessions sid =
        some ⟨sid, C, P⟩ ∧
      (∃ l, alGet (start_session sid P C s).server.consumer_sessions C =
        some l ∧ sid ∈ l) ∧
      (∃ l, alGet (start_session sid P C s).server.producer_sessions P =
        some l ∧ sid ∈ l) ∧
      (start_session sid P C s).effects =
        [.send C (.sessionStarted P sid),
         .send P (.startSessionMsg C sid)]) ∧
    ((alGet s.peers P = none ∨
        (∃ pst, alGet s.peers P = some pst ∧ ¬ producing pst) ∨
        alGet s.peers C = none) →
      (start_session sid P C s).server = s ∧
      (start_session sid P C s).effects = [] ∧
      (start_session sid P C s).err.isSome) := by
  constructor
  · intro pst cst hP hprod hC _hfresh
    unfold start_session
    rw [hP]
    dsimp only
    rw [if_pos hprod, hC]
    dsimp only [Step.done]
    refine ⟨rfl, by simp, ?_, ?_, rfl⟩
    · exact alGet_alUpsertAdd_self ..
    · exact alGet_alUpsertAdd_self ..
  · intro hfail
    unfold start_session
    rcases hfail with hP | ⟨pst, hP, hnp⟩ | hC
    · rw [hP]
      exact ⟨rfl, rfl, rfl⟩
    · rw [hP]
      dsimp only
      rw [if_neg hnp]
      exact ⟨rfl, rfl, rfl⟩
    · cases hP : alGet s.peers P with
      | none => exact ⟨rfl, rfl, rfl⟩
      | some pst =>
        dsimp only
        by_cases hprod : producing pst
        · rw [if_pos hprod, hC]
          exact ⟨rfl, rfl, rfl⟩
        · rw [if_neg hprod]
          exact ⟨rfl, rfl, rfl⟩

/-- Witness for C5: both branches exercised on the concrete state with
producer `pB` and consumer `pA`: the session `S` is created with the two
messages in order, and a request towards the non-producer `pA` fails
cleanly. -/
theorem start_session_spec_witness :
    ((start_session "S" "pB" "pA" c1State).err = none ∧
      alGet (start_session "S" "pB" "pA" c1State).server.sessions "S" =
        some ⟨"S", "pA", "pB"⟩ ∧
      (∃ l, alGet (start_session "S" "pB" "pA"
          c1State).server.consumer_sessions "pA" = some l ∧ "S" ∈ l) ∧
      (∃ l, alGet (start_session "S" "pB" "pA"
          c1State).server.producer_sessions "pB" = some l ∧ "S" ∈ l) ∧
      (start_session "S" "pB" "pA" c1State).effects =
        [.send "pA" (.sessionStarted "pB" "S"),
         .send "pB" (.startSessionMsg "pA" "S")]) ∧
    ((start_session "T" "pA" "pB" c1State).server = c1State ∧
      (start_session "T" "pA" "pB" c1State).effects = [] ∧
      (start_session "T" "pA" "pB" c1State).err.isSome) :=
  ⟨(start_session_spec "S" "pB" "pA" c1State).1
      ⟨some "pB", [.Producer], none⟩ ⟨some "pA", [], none⟩
      (by decide) (by decide) (by decide) (by decide),
   (start_session_spec "T" "pA" "pB" c1State).2
      (Or.inr (Or.inl ⟨⟨some "pA", [], none⟩, (by decide), (by decide)⟩))⟩

/-- C3 counterexample: the full invariant I3 fails on a reachable state.
Peer `p` registers as recorder for `cam1` and then changes its status to
plain listener: the recorder mapping `cam1 → p` survives, but the stored
roles no longer contain Recorder (and the meta no longer names `cam1`). -/
theorem recorder_index_role_claim_false :
    ¬ (∀ s : Server, Reachable s → ∀ cam pid, (cam, pid) ∈ s.recorders →
        ∃ st, alGet s.peers pid = some st ∧ recording st ∧
          metaIdIs st.meta cam = true) := by
  intro hall
  have hreach : Reachable exC3 :=
    Reachable.setStatusStep "p" listenerStatus
      (Reachable.setStatusStep "p" cam1Status
        (Reachable.connect "p" Reachable.init (by decide)))
  obtain ⟨st, hget, hrec, _⟩ := hall exC3 hreach "cam1" "p" (by decide)
  have hval : alGet exC3.peers "p" =
      some ⟨some "p", [.Listener], none⟩ := by decide
  rw [hval] at hget
  injection hget with hst
  rw [← hst] at hrec
  exact absurd hrec (by decide)

/-- C3 (amended): in every reachable state, every recorder-index value
names a registered peer; and at the moment a `SetPeerStatus` installs a
mapping `camId → cid`, the stored status does carry the Recorder role and
a meta whose `id` is `camId`. The Recorder-role/meta part of I3 is not
preserved by later status changes of the same peer. -/
theorem recorder_index_invariant (s : Server) (h : Reachable s) :
    (∀ cam pid, (cam, pid) ∈ s.recorders → (alGet s.peers pid).isSome) ∧
    (∀ cid st old m camId, alGet s.peers cid = some old →
      ¬ statusEq st old → ¬ producing st → recording st →
      st.meta = some m → metaGetStr m "id" = some camId →
      alGet (set_peer_status cid st s).server.recorders camId =
        some cid ∧
      ∃ st', alGet (set_peer_status cid st s).server.peers cid =
        some st' ∧ recording st' ∧ metaIdIs st'.meta camId = true) := by
  constructor
  · intro cam pid hm
    exact reachable_recInv h (cam, pid) hm
  · intro cid st old m camId hp hne hprod hrec hm hcam
    unfold set_peer_status
    rw [hp]
    dsimp only
    rw [if_neg hne, if_neg hprod, if_pos hrec, hm]
    dsimp only
    rw [hcam]
    dsimp only [Step.done]
    refine ⟨by simp, ⟨some cid, st.roles, some m⟩, by simp, hrec, ?_⟩
    simp [metaIdIs, hcam]

/-- Witness for C3 (amended): in the reachable state where recorder `Q`
just registered for `cam2`, the mapping exists and `Q` is registered. -/
theorem recorder_index_invariant_witness :
    ("cam2", "Q") ∈ exRec.server.recorders ∧
    (alGet exRec.server.peers "Q").isSome :=
  ⟨by decide,
   (recorder_index_invariant exRec.server
      (Reachable.setStatusStep "Q" recStatus
        (Reachable.connect "Q"
          (Reachable.setStatusStep "L" listenerStatus
            (Reachable.connect "L" Reachable.init (by decide)))
          (by decide)))).1 "cam2" "Q" (by decide)⟩

/-- C7: in every reachable state every pipeline entry has a non-empty
viewer set, and removing the last viewer of a camera through
`stop_preview` stops that pipeline and erases the entry. -/
theorem pipeline_viewers_nonempty :
    (∀ s : Server, Reachable s → ∀ e ∈ s.pipelines, e.2.clients ≠ []) ∧
    (∀ (cam : String) (vid : PeerId) (s : Server) (pl : Pipeline),
      alGet s.pipelines cam = some pl → setRemove pl.clients vid = [] →
      alGet (stop_preview cam vid s).1.pipelines cam = none ∧
      (stop_preview cam vid s).2 = [.stopPipeline pl.pipeline]) := by
  constructor
  · intro s h
    exact reachable_pipeInv h
  · intro cam vid s pl hpl hlast
    unfold stop_preview
    rw [hpl]
    dsimp only
    rw [if_pos (by simp [hlast])]
    exact ⟨alGet_alRemove_self .., rfl⟩

/-- Witness for C7: the single viewer `V` of `cam1` stops previewing; the
pipeline (handle 0) is stopped and the entry removed. -/
theorem pipeline_viewers_nonempty_witness :
    alGet (stop_preview "cam1" "V" c7State).1.pipelines "cam1" = none ∧
    (stop_preview "cam1" "V" c7State).2 = [.stopPipeline 0] :=
  pipeline_viewers_nonempty.2 "cam1" "V" c7State ⟨0, ["V"]⟩
    (by decide) (by decide)

/-- C6: removing a camera whose id is registered to a connected recording
peer sends that peer `EndSession` with the camera id, sends the refreshed
camera list to every listening peer, and stops and erases any preview
pipeline entry for the camera (catalog I/O assumed to succeed). -/
theorem remove_camera_signals_recorder (cam : Camera) (rpid : PeerId)
    (rst : PeerStatus) (s : Server)
    (hrec : alGet s.recorders cam.id = some rpid)
    (hp : alGet s.peers rpid = some rst)
    (hrecording : recording rst) :
    (Effect.send rpid (.endSessionMsg cam.id)) ∈
        (dispatchRemoveCamera true cam s).2 ∧
    (∀ q st, (q, st) ∈ s.peers → listening st →
      Effect.send q (.listCamerasMsg
          (s.db.filter (fun c => c.id ≠ cam.id))) ∈
        (dispatchRemoveCamera true cam s).2) ∧
    (∀ pl, alGet s.pipelines cam.id = some pl →
      Effect.stopPipeline pl.pipeline ∈ (dispatchRemoveCamera true cam s).2) ∧
    alGet (dispatchRemoveCamera true cam s).1.pipelines cam.id = none := by
  unfold dispatchRemoveCamera remove_camera
  rw [if_pos rfl]
  dsimp only
  cases hpl : alGet s.pipelines cam.id with
  | some pl =>
    dsimp only
    rw [hrec]
    dsimp only
    rw [hp]
    dsimp only
    rw [if_pos hrecording]
    dsimp only [Step.done]
    refine ⟨by simp, ?_, ?_, ?_⟩
    · intro q st hq hl
      simp only [List.mem_append]
      exact Or.inl (Or.inl (broadcastCameras_mem _ _ hq hl))
    · intro pl' hpl'
      injection hpl' with hpl'
      subst hpl'
      simp
    · exact alGet_alRemove_self ..
  | none =>
    dsimp only
    rw [hrec]
    dsimp only
    rw [hp]
    dsimp only
    rw [if_pos hrecording]
    dsimp only [Step.done]
    refine ⟨by simp, ?_, ?_, hpl⟩
    · intro q st hq hl
      simp only [List.mem_append]
      exact Or.inl (Or.inl (broadcastCameras_mem _ _ hq hl))
    · intro pl' hpl'
      exact absurd hpl' (by simp)

/-- Witness for C6: removing `cam3` signals recorder `R` and refreshes
listener `L`. -/
theorem remove_camera_signals_recorder_witness :
    (Effect.send "R" (.endSessionMsg "cam3")) ∈
        (dispatchRemoveCamera true ⟨"cam3", "n", "loc", "u"⟩ c6State).2 ∧
    (∀ q st, (q, st) ∈ c6State.peers → listening st →
      Effect.send q (.listCamerasMsg
          (c6State.db.filter (fun c => c.id ≠ "cam3"))) ∈
        (dispatchRemoveCamera true ⟨"cam3", "n", "loc", "u"⟩ c6State).2) ∧
    (∀ pl, alGet c6State.pipelines "cam3" = some pl →
      Effect.stopPipeline pl.pipeline ∈
        (dispatchRemoveCamera true ⟨"cam3", "n", "loc", "u"⟩ c6State).2) ∧
    alGet (dispatchRemoveCamera true
        ⟨"cam3", "n", "loc", "u"⟩ c6State).1.pipelines "cam3" = none :=
  remove_camera_signals_recorder ⟨"cam3", "n", "loc", "u"⟩ "R"
    ⟨some "R", [.Recorder], some (.obj [("id", .str "cam3")])⟩ c6State
    (by decide) (by decide) (by decide)

theorem dropViewer_id {p : PeerId} {l : List (String × Pipeline)}
    (h : ∀ e ∈ l, p ∉ e.2.clients ∧ e.2.clients ≠ []) :
    dropViewer p l = (l, []) := by
  induction l with
  | nil => rfl
  | cons hd tl ih =>
    obtain ⟨cam, pl⟩ := hd
    have hh := h (cam, pl) (List.mem_cons_self _ _)
    have hrest : ∀ e ∈ tl, p ∉ e.2.clients ∧ e.2.clients ≠ [] :=
      fun e he => h e (List.mem_cons_of_mem _ he)
    simp only [dropViewer]
    rw [ih hrest, setRemove_of_not_mem hh.1]
    rw [if_neg (by simpa [List.isEmpty_iff] using hh.2)]

/-- C9: disconnecting a peer id that is absent from the registry, from
every pipeline viewer set (all non-empty, as reachable states are), from
the recorder-index values and from both reverse indexes changes nothing
and emits nothing; hence a second identical disconnect behaves like the
first. -/
theorem disconnect_absent_peer_noop (p : PeerId) (s : Server)
    (hpeers : alGet s.peers p = none)
    (hpipe : ∀ e ∈ s.pipelines, p ∉ e.2.clients ∧ e.2.clients ≠ [])
    (hrec : ∀ e ∈ s.recorders, e.2 ≠ p)
    (hcs : alGet s.consumer_sessions p = none)
    (hps : alGet s.producer_sessions p = none) :
    disconnect p s = (s, []) ∧
    disconnect p (disconnect p s).1 = ((disconnect p s).1, []) := by
  have hflt : s.recorders.filter (fun e => e.2 ≠ p) = s.recorders :=
    List.filter_eq_self.mpr (fun e he => by simpa using hrec e he)
  have h1 : disconnect p s = (s, []) := by
    unfold disconnect
    rw [dropViewer_id hpipe, hflt, alRemove_of_alGet_none hpeers, hpeers]
    dsimp only
    rw [stop_producer_noop hps, stop_consumer_noop hcs]
    rfl
  exact ⟨h1, by rw [h1]; exact h1⟩

/-- Witness for C9: disconnecting the unknown peer id `X` from the
concrete two-peer state changes nothing; doing it twice is the same. -/
theorem disconnect_absent_peer_noop_witness :
    disconnect "X" c1State = (c1State, []) ∧
    disconnect "X" (disconnect "X" c1State).1 =
      ((disconnect "X" c1State).1, []) :=
  disconnect_absent_peer_noop "X" c1State (by decide) (by decide)
    (by decide) (by decide) (by decide)

theorem otherPeerId_producer (sid cons prod : String) :
    Session.otherPeerId ⟨sid, cons, prod⟩ prod = some cons := by
  simp [Session.otherPeerId]

theorem end_session_from_producer {p sid cons : String} {t : Server}
    {cst : PeerStatus}
    (hs : alGet t.sessions sid = some ⟨sid, cons, p⟩)
    (hc : alGet t.peers cons = some cst) :
    end_session p sid t = Step.done
      { t with sessions := alRemove t.sessions sid,
               consumer_sessions := alModify t.consumer_sessions cons
                 (fun st => setRemove st sid),
               producer_sessions := alModify t.producer_sessions p
                 (fun st => setRemove st sid) }
      [.send cons (.endSessionMsg sid)] := by
  unfold end_session
  rw [hs]
  dsimp only
  rw [otherPeerId_producer]
  dsimp only
  rw [hc]

theorem filter_endSessionTo_of_statusChange {l : List Effect}
    (h : ∀ e ∈ l, isStatusChange e = true) (v : PeerId) :
    l.filter (isEndSessionTo v) = [] := by
  rw [List.filter_eq_nil]
  intro e he
  have hs := h e he
  cases e with
  | send q m =>
    cases m <;> simp_all [isStatusChange, isEndSessionTo]
  | startPipeline hd => simp [isEndSessionTo]
  | stopPipeline hd => simp [isEndSessionTo]

theorem disconnect_decomp (p : PeerId) (s : Server) :
    ∃ bEffs, (∀ e ∈ bEffs, isStatusChange e = true) ∧
      disconnect p s =
        ((stop_consumer p (stop_producer p (disconnectPrelude p s)).1).1,
         (dropViewer p s.pipelines).2 ++ bEffs ++
           (stop_producer p (disconnectPrelude p s)).2 ++
           (stop_consumer p
             (stop_producer p (disconnectPrelude p s)).1).2) := by
  unfold disconnect disconnectPrelude
  dsimp only
  cases hPst : alGet s.peers p with
  | none => exact ⟨[], by intro e he; simp at he, rfl⟩
  | some pst =>
    dsimp only
    by_cases hr : recording pst
    · rw [if_pos hr]
      refine ⟨broadcastStatusToListeners (alRemove s.peers p)
          ⟨none, pst.roles, pst.meta⟩, ?_, rfl⟩
      intro e he
      obtain ⟨q, rfl⟩ := broadcastStatus_shape _ _ e he
      rfl
    · rw [if_neg hr]
      exact ⟨[], by intro e he; simp at he, rfl⟩

theorem stop_producer_pair (P V1 V2 sid1 sid2 : String) (t : Server)
    (st1 st2 : PeerStatus)
    (h1 : alGet t.sessions sid1 = some ⟨sid1, V1, P⟩)
    (h2 : alGet t.sessions sid2 = some ⟨sid2, V2, P⟩)
    (hps : alGet t.producer_sessions P = some [sid1, sid2])
    (hV1 : alGet t.peers V1 = some st1)
    (hV2 : alGet t.peers V2 = some st2)
    (hss : sid1 ≠ sid2) :
    (stop_producer P t).2 =
      [.send V1 (.endSessionMsg sid1), .send V2 (.endSessionMsg sid2)] ∧
    (stop_producer P t).1 =
      { t with
        sessions := alRemove (alRemove t.sessions sid1) sid2,
        consumer_sessions :=
          alModify (alModify t.consumer_sessions V1
            (fun st => setRemove st sid1)) V2 (fun st => setRemove st sid2),
        producer_sessions :=
          alModify (alModify (alRemove t.producer_sessions P) P
            (fun st => setRemove st sid1)) P
            (fun st => setRemove st sid2) } := by
  unfold stop_producer
  rw [hps]
  simp only [endAll, List.foldl_cons, List.foldl_nil]
  rw [end_session_from_producer
    (t := { t with producer_sessions := alRemove t.producer_sessions P })
    h1 hV1]
  dsimp only [Step.done]
  rw [end_session_from_producer
    (t := { t with
      sessions := alRemove t.sessions sid1,
      consumer_sessions := alModify t.consumer_sessions V1
        (fun st => setRemove st sid1),
      producer_sessions := alModify (alRemove t.producer_sessions P) P
        (fun st => setRemove st sid1) })
    ((alGet_alRemove_ne t.sessions (Ne.symm hss)).trans h2) hV2]
  dsimp only [Step.done]
  exact ⟨rfl, rfl⟩

/-- C8: a producer `P` holding exactly the active sessions `sid1` (with
consumer `V1`) and `sid2` (with consumer `V2`) disconnects: `V1` and
`V2` each receive exactly one `EndSession`, carrying their respective
session ids; the producer-side reverse-index entry for `P` and the
registry entry for `P` are gone. -/
theorem producer_disconnect_cascade (P V1 V2 : PeerId)
    (sid1 sid2 : String) (s : Server) (st1 st2 : PeerStatus)
    (h1 : alGet s.sessions sid1 = some ⟨sid1, V1, P⟩)
    (h2 : alGet s.sessions sid2 = some ⟨sid2, V2, P⟩)
    (hps : alGet s.producer_sessions P = some [sid1, sid2])
    (hcs : alGet s.consumer_sessions P = none)
    (hV1 : alGet s.peers V1 = some st1)
    (hV2 : alGet s.peers V2 = some st2)
    (hV1P : V1 ≠ P) (hV2P : V2 ≠ P) (hVV : V1 ≠ V2)
    (hss : sid1 ≠ sid2) :
    ((disconnect P s).2.filter (isEndSessionTo V1) =
      [.send V1 (.endSessionMsg sid1)]) ∧
    ((disconnect P s).2.filter (isEndSessionTo V2) =
      [.send V2 (.endSessionMsg sid2)]) ∧
    alGet (disconnect P s).1.producer_sessions P = none ∧
    alGet (disconnect P s).1.peers P = none := by
  obtain ⟨bEffs, hbshape, hd⟩ := disconnect_decomp P s
  have h1' : alGet (disconnectPrelude P s).sessions sid1 =
      some ⟨sid1, V1, P⟩ := h1
  have h2' : alGet (disconnectPrelude P s).sessions sid2 =
      some ⟨sid2, V2, P⟩ := h2
  have hps' : alGet (disconnectPrelude P s).producer_sessions P =
      some [sid1, sid2] := hps
  have hV1' : alGet (disconnectPrelude P s).peers V1 = some st1 :=
    (alGet_alRemove_ne s.peers hV1P).trans hV1
  have hV2' : alGet (disconnectPrelude P s).peers V2 = some st2 :=
    (alGet_alRemove_ne s.peers hV2P).trans hV2
  obtain ⟨hsp2, hsp1⟩ := stop_producer_pair P V1 V2 sid1 sid2
    (disconnectPrelude P s) st1 st2 h1' h2' hps' hV1' hV2' hss
  have hcs' : alGet (stop_producer P
      (disconnectPrelude P s)).1.consumer_sessions P = none := by
    rw [hsp1]
    exact alGet_alModify_none _ _ (alGet_alModify_none _ _ hcs)
  have hsc := stop_consumer_noop hcs'
  have heff : (disconnect P s).2 =
      (dropViewer P s.pipelines).2 ++ bEffs ++
        [Effect.send V1 (.endSessionMsg sid1),
         Effect.send V2 (.endSessionMsg sid2)] ++ [] := by
    rw [hd]
    dsimp only
    rw [hsc]
    rw [hsp2]
  refine ⟨?_, ?_, ?_, ?_⟩
  · rw [heff]
    simp only [List.filter_append, filter_endSessionTo_dropViewer,
      filter_endSessionTo_of_statusChange hbshape, List.filter_nil,
      List.nil_append, List.append_nil]
    simp [isEndSessionTo, Ne.symm hVV]
  · rw [heff]
    simp only [List.filter_append, filter_endSessionTo_dropViewer,
      filter_endSessionTo_of_statusChange hbshape, List.filter_nil,
      List.nil_append, List.append_nil]
    simp [isEndSessionTo, hVV]
  · rw [hd]
    dsimp only
    rw [hsc]
    dsimp only
    rw [hsp1]
    dsimp only
    exact alGet_alModify_none _ _ (alGet_alModify_none _ _
      (alGet_alRemove_self ..))
  · rw [disconnect_peers]
    exact alGet_alRemove_self ..

/-- Witness for C8: producer `P` with sessions `s1` (consumer `V1`) and
`s2` (consumer `V2`) disconnects in the concrete state. -/
theorem producer_disconnect_cascade_witness :
    ((disconnect "P" c8State).2.filter (isEndSessionTo "V1") =
      [.send "V1" (.endSessionMsg "s1")]) ∧
    ((disconnect "P" c8State).2.filter (isEndSessionTo "V2") =
      [.send "V2" (.endSessionMsg "s2")]) ∧
    alGet (disconnect "P" c8State).1.producer_sessions "P" = none ∧
    alGet (disconnect "P" c8State).1.peers "P" = none :=
  producer_disconnect_cascade "P" "V1" "V2" "s1" "s2" c8State
    ⟨some "V1", [], none⟩ ⟨some "V2", [], none⟩
    (by decide) (by decide) (by decide) (by decide) (by decide) (by decide)
    (by decide) (by decide) (by decide) (by decide)

end FinalNvr
